import Mathlib

/-!
Verification of the depth-1 web scraper (`scrap.py`).

The development shallowly embeds the program's components:

* the URL-resolution collaborator (`urllib.parse.urljoin` with its
  `urlsplit` / `urlunsplit` helpers, including the `ValueError` raised on an
  authority with unbalanced brackets), modelled over `List Char`;
* the parsed-HTML collaborator (a node tree with tag / attributes / children,
  attribute lookup, pre-order traversal);
* `fetch_page`, `extract_links`, `scrape_page_to_text` and the orchestration
  in `main`, with the HTTP client and HTML parser supplied by an explicit
  environment record.

Fallible Python code is modelled with `Except`: a `.error` value stands for a
raised exception.
-/

deriving instance DecidableEq for Except

/-! ## URL resolution (`urllib.parse`) -/

/-- Characters allowed in a URL scheme (`urllib.parse.scheme_chars`). -/
def schemeChar (c : Char) : Bool :=
  c.isAlpha || c.isDigit || c = '+' || c = '-' || c = '.'

/-- ASCII lowercasing of a single character, as applied by `urlsplit` to the
scheme it extracts. -/
def lowerChar : Char → Char
  | 'A' => 'a' | 'B' => 'b' | 'C' => 'c' | 'D' => 'd' | 'E' => 'e' | 'F' => 'f'
  | 'G' => 'g' | 'H' => 'h' | 'I' => 'i' | 'J' => 'j' | 'K' => 'k' | 'L' => 'l'
  | 'M' => 'm' | 'N' => 'n' | 'O' => 'o' | 'P' => 'p' | 'Q' => 'q' | 'R' => 'r'
  | 'S' => 's' | 'T' => 't' | 'U' => 'u' | 'V' => 'v' | 'W' => 'w' | 'X' => 'x'
  | 'Y' => 'y' | 'Z' => 'z'
  | c => c

/-- Scan for the `:` ending a scheme, validating every character on the way
(`urlsplit`'s check of `url[:i]` against `scheme_chars`).  `acc` holds the
characters already validated, in reverse. -/
def findScheme : List Char → List Char → Option (List Char × List Char)
  | _, [] => none
  | acc, c :: cs =>
    if c = ':' then some ((acc.reverse).map lowerChar, cs)
    else if schemeChar c then findScheme (c :: acc) cs else none

/-- Split off a leading `scheme:` if present, lowercased, as `urlsplit` does:
the character before the first `:` must all be scheme characters and the first
one a letter. -/
def splitScheme : List Char → Option (List Char × List Char)
  | [] => none
  | c :: cs => if c.isAlpha then findScheme [c] cs else none

/-- The netloc runs from after `//` up to the first `/`, `?` or `#`
(`urllib.parse._splitnetloc`).  Returns (netloc, remainder). -/
def takeNetloc : List Char → List Char × List Char
  | [] => ([], [])
  | c :: cs =>
    if c = '/' ∨ c = '?' ∨ c = '#' then ([], c :: cs)
    else
      let r := takeNetloc cs
      (c :: r.1, r.2)

/-- Python `str.split(sep, 1)`: the part before the first occurrence of `sep` and the
part after it (the whole string and `""` when `sep` does not occur). -/
def splitOnceAt (sep : Char) : List Char → List Char × List Char
  | [] => ([], [])
  | c :: cs =>
    if c = sep then ([], cs)
    else
      let r := splitOnceAt sep cs
      (c :: r.1, r.2)

/-- The five components produced by `urlsplit` (params folded into the path,
as they only matter for `;`-parameter corner cases). -/
structure SplitUrl where
  scheme : List Char
  netloc : List Char
  path : List Char
  query : List Char
  fragment : List Char
deriving DecidableEq, Repr

/-- The scheme `urlsplit url (default d)` reports: the url's own scheme if it
has one, otherwise the default. -/
def schemeOf (l d : List Char) : List Char :=
  match splitScheme l with
  | some (s, _) => s
  | none => d

/-- What remains of the url after removing its own `scheme:` part, if any. -/
def afterScheme (l : List Char) : List Char :=
  match splitScheme l with
  | some (_, r) => r
  | none => l

/-- The function `urllib.parse.urlsplit`, with the default-scheme argument.  Raises
(`.error`) exactly where CPython raises `ValueError("Invalid IPv6 URL")`:
a netloc containing `[` without `]` or vice versa. -/
def urlsplitE (l d : List Char) : Except String SplitUrl :=
  let s := schemeOf l d
  let rest := afterScheme l
  let nl := if rest.take 2 = ['/', '/'] then takeNetloc (rest.drop 2) else ([], rest)
  if (nl.1.contains '[' && !nl.1.contains ']') || (nl.1.contains ']' && !nl.1.contains '[') then
    Except.error "Invalid IPv6 URL"
  else
    let fr := splitOnceAt '#' nl.2
    let pq := splitOnceAt '?' fr.1
    Except.ok ⟨s, nl.1, pq.1, pq.2, fr.2⟩

/-- The function `urllib.parse.urlunsplit`. -/
def urlunsplit (r : SplitUrl) : List Char :=
  let url := r.path
  let url :=
    if r.netloc ≠ [] ∨ url.take 2 = ['/', '/'] then
      '/' :: '/' :: r.netloc ++ (if url ≠ [] ∧ url.take 1 ≠ ['/'] then '/' :: url else url)
    else url
  let url := if r.scheme ≠ [] then r.scheme ++ ':' :: url else url
  let url := if r.query ≠ [] then url ++ '?' :: r.query else url
  if r.fragment ≠ [] then url ++ '#' :: r.fragment else url

/-- The list `urllib.parse.uses_relative`. -/
def usesRelative : List (List Char) :=
  ["", "ftp", "http", "gopher", "nntp", "imap", "wais", "file", "https", "shttp",
   "mms", "prospero", "rtsp", "rtspu", "sftp", "svn", "svn+ssh", "ws", "wss"].map String.data

/-- The list `urllib.parse.uses_netloc`. -/
def usesNetloc : List (List Char) :=
  ["", "ftp", "http", "gopher", "nntp", "telnet", "imap", "wais", "file", "mms",
   "https", "shttp", "snews", "prospero", "rtsp", "rtspu", "rsync", "svn",
   "svn+ssh", "sftp", "nfs", "git", "git+ssh", "ws", "wss", "itms-services"].map String.data

/-- Python `str.split(sep)` on a single-character separator; yields `[""]` on the
empty string, like Python. -/
def splitOn (sep : Char) : List Char → List (List Char)
  | [] => [[]]
  | c :: cs =>
    let r := splitOn sep cs
    if c = sep then [] :: r
    else
      match r with
      | a :: t => (c :: a) :: t
      | [] => [[c]]

/-- Python `segments[1:-1] = filter(None, segments[1:-1])`: drop empty segments,
keeping the first and last elements untouched. -/
def filterMidAux : List (List Char) → List (List Char)
  | [] => []
  | [a] => [a]
  | a :: rest => if a = [] then filterMidAux rest else a :: filterMidAux rest

/-- Keep the first element, then filter empties from the middle while keeping
the last. -/
def filterMid : List (List Char) → List (List Char)
  | [] => []
  | a :: rest => a :: filterMidAux rest

/-- The segment loop of `urljoin`: push ordinary segments, drop `.`, pop on
`..` (ignoring pops from an empty stack, like the `IndexError: pass`).
`acc` is the resolved path in reverse. -/
def resolveSegs (acc : List (List Char)) : List (List Char) → List (List Char)
  | [] => acc.reverse
  | s :: rest =>
    if s = ['.', '.'] then resolveSegs acc.tail rest
    else if s = ['.'] then resolveSegs acc rest
    else resolveSegs (s :: acc) rest

/-- Everything `urljoin` does after deciding the url is relative to the base:
netloc inheritance, empty-path inheritance, and dot-segment resolution. -/
def joinResolved (b u : SplitUrl) : List Char :=
  if u.scheme ∈ usesNetloc ∧ u.netloc ≠ [] then urlunsplit u
  else
    let netloc := if u.scheme ∈ usesNetloc then b.netloc else u.netloc
    if u.path = [] then
      urlunsplit ⟨u.scheme, netloc, b.path, if u.query = [] then b.query else u.query, u.fragment⟩
    else
      let baseParts := splitOn '/' b.path
      let baseParts := if baseParts.getLast? = some [] then baseParts else baseParts.dropLast
      let segments :=
        if u.path.take 1 = ['/'] then splitOn '/' u.path
        else filterMid (baseParts ++ splitOn '/' u.path)
      let res := resolveSegs [] segments
      let res :=
        if segments.getLast? = some ['.'] ∨ segments.getLast? = some ['.', '.'] then
          res ++ [[]]
        else res
      let p := List.intercalate ['/'] res
      urlunsplit ⟨u.scheme, netloc, if p = [] then ['/'] else p, u.query, u.fragment⟩

/-- The function `urllib.parse.urljoin`, over character lists.  `.error` models the
`ValueError` that `urlsplit` can raise on a malformed authority. -/
def urljoinE (base url : List Char) : Except String (List Char) :=
  if base = [] then Except.ok url
  else if url = [] then Except.ok base
  else
    match urlsplitE base [] with
    | Except.error e => Except.error e
    | Except.ok b =>
      match urlsplitE url b.scheme with
      | Except.error e => Except.error e
      | Except.ok u =>
        if u.scheme ≠ b.scheme ∨ u.scheme ∉ usesRelative then Except.ok url
        else Except.ok (joinResolved b u)

/-- Resolution (`urljoin`) on strings, as used by `extract_links`. -/
def urljoinS (base url : String) : Except String String :=
  match urljoinE base.data url.data with
  | Except.error e => Except.error e
  | Except.ok l => Except.ok (String.mk l)

/-- A string carries a URL scheme: `urlsplit` would find a `scheme:` prefix
on it. -/
def hasUrlScheme (s : String) : Bool :=
  (splitScheme s.data).isSome

/-- The spec's glossary notion of an absolute URL: a scheme and a host, as
reported by `urlsplit`. -/
def isAbsoluteUrl (s : String) : Bool :=
  match urlsplitE s.data [] with
  | Except.ok r => !r.scheme.isEmpty && !r.netloc.isEmpty
  | Except.error _ => false

/-! ## Parsed HTML (the BeautifulSoup collaborator's data model) -/

/-- A node of the parsed document: a text node, or an element with a tag,
attributes and children.  `BeautifulSoup(html, 'html.parser')` produces the
root of such a tree. -/
inductive Node where
  | text (s : String)
  | element (tag : String) (attrs : List (String × String)) (children : List Node)

/-- Attribute access (`tag['href']` / `tag.has_attr`): first binding wins. -/
def attrLookup : List (String × String) → String → Option String
  | [], _ => none
  | (k, v) :: t, key => if k = key then some v else attrLookup t key

/-- The href contributed by a single element if it is an `<a>` with an `href`
attribute (`soup.find_all('a', href=True)` keeps exactly those). -/
def ownHref (tag : String) (attrs : List (String × String)) : List String :=
  if tag = "a" then
    match attrLookup attrs "href" with
    | some h => [h]
    | none => []
  else []

mutual
/-- The href values of all `<a ... href=...>` elements of the tree in
document (pre-) order, as enumerated by `soup.find_all('a', href=True)`. -/
def nodeHrefs : Node → List String
  | .text _ => []
  | .element tag attrs cs => ownHref tag attrs ++ hrefsList cs
/-- Traversal `nodeHrefs` over a list of sibling nodes. -/
def hrefsList : List Node → List String
  | [] => []
  | c :: cs => nodeHrefs c ++ hrefsList cs
end

mutual
/-- Remove a node if its tag is `script` or `style`; otherwise keep it with
its children filtered (the `decompose()` loop of `scrape_page_to_text`). -/
def stripNode : Node → Option Node
  | .text s => some (.text s)
  | .element tag attrs cs =>
    if tag = "script" ∨ tag = "style" then none
    else some (.element tag attrs (stripList cs))
/-- Filtering `stripNode` over a list of sibling nodes, dropping decomposed ones. -/
def stripList : List Node → List Node
  | [] => []
  | c :: cs =>
    match stripNode c with
    | some n => n :: stripList cs
    | none => stripList cs
end

mutual
/-- All text-node strings of the tree in document order (BeautifulSoup's
`.strings`, which `get_text` joins with the separator). -/
def textsOf : Node → List String
  | .text s => [s]
  | .element _ _ cs => textsList cs
/-- Traversal `textsOf` over a list of sibling nodes. -/
def textsList : List Node → List String
  | [] => []
  | c :: cs => textsOf c ++ textsList cs
end

/-- The whitespace set of Python's `str.strip()` (ASCII part). -/
def pySpace (c : Char) : Bool :=
  c = ' ' ∨ c = '\t' ∨ c = '\n' ∨ c = '\x0d' ∨ c = '\x0b' ∨ c = '\x0c'

/-- Python `str.strip()`. -/
def pyStrip (s : String) : String :=
  String.mk (((s.data.dropWhile pySpace).reverse.dropWhile pySpace).reverse)

/-- The text-extraction step of `scrape_page_to_text` on an already parsed
document: decompose every `script`/`style` element, join the remaining text
nodes with `'\n'` (`soup.get_text(separator='\n')`), and strip the result. -/
def extract_text (soup : Node) : String :=
  pyStrip (String.intercalate "\n" (textsList (stripList [soup])))

/-! ## `extract_links` -/

/-- Python `set.add`: sets are modelled as duplicate-free lists in first-insertion
order (the spec treats order as irrelevant). -/
def addLink (l : List String) (u : String) : List String :=
  if u ∈ l then l else l ++ [u]

/-- The loop of `extract_links`: resolve each href against the base and add
it to the set; an unresolvable href raises out of the loop. -/
def linksFold (base : String) : List String → List String → Except String (List String)
  | [], acc => Except.ok acc
  | h :: t, acc =>
    match urljoinS base h with
    | Except.error e => Except.error e
    | Except.ok u => linksFold base t (addLink acc u)

/-- The function `extract_links(soup, base_url)`: the set of absolute URLs obtained by
resolving the href of every `<a href=...>` element against `base_url`. -/
def extract_links (soup : Node) (base_url : String) : Except String (List String) :=
  linksFold base_url (nodeHrefs soup) []

/-- A one-anchor document, used by the concrete resolution claims. -/
def docAnchor (h : String) : Node :=
  Node.element "[document]" [] [Node.element "html" [] [Node.element "body" []
    [Node.element "a" [("href", h)] [Node.text "link"]]]]

/-- The parse tree of
`<html><body><script>ignored()</script><style>body{color:red}</style><p>Hello</p></body></html>`. -/
def docScriptStyle : Node :=
  Node.element "[document]" [] [Node.element "html" [] [Node.element "body" []
    [Node.element "script" [] [Node.text "ignored()"],
     Node.element "style" [] [Node.text "body\x7bcolor:red\x7d"],
     Node.element "p" [] [Node.text "Hello"]]]]


/-! ## Fetching and the orchestrator -/

/-- An HTTP response as seen through `requests`: status code and decoded
body text. -/
structure Response where
  status : Nat
  body : String
deriving DecidableEq

/-- The external collaborators `main` runs against: the HTTP client
(`requests.get`, whose `.error` is a transport failure), the HTML parser
(`BeautifulSoup(html, 'html.parser')`), and `os.path.abspath`. -/
structure Env where
  get : String → Except String Response
  parse : String → Node
  abspath : String → String

/-- The exception `requests.RequestException` as `fetch_page` can raise it: a transport
error, or an HTTPError from `raise_for_status`. -/
inductive FetchError where
  | transport (msg : String)
  | http (status : Nat)
deriving DecidableEq

/-- The console rendering of a fetch error (`str(e)`). -/
def fetchErrorMsg : FetchError → String
  | .transport m => m
  | .http n => "HTTP error " ++ toString n

/-- The function `fetch_page(url)`: GET the url; `raise_for_status` raises for any 4xx/5xx
status; otherwise return the body text. -/
def fetch_page (env : Env) (url : String) : Except FetchError String :=
  match env.get url with
  | Except.error m => Except.error (FetchError.transport m)
  | Except.ok r =>
    if 400 ≤ r.status ∧ r.status < 600 then Except.error (FetchError.http r.status)
    else Except.ok r.body

/-- The function `scrape_page_to_text(url)`: fetch, parse, decompose `script`/`style`,
linearize the text with `'\n'` and strip.  A `FetchError` from the embedded
fetch propagates unchanged. -/
def scrape_page_to_text (env : Env) (url : String) : Except FetchError String :=
  match fetch_page env url with
  | Except.error e => Except.error e
  | Except.ok html => Except.ok (extract_text (env.parse html))

/-- One iteration of `main`'s per-link loop on the state (file content so
far, console lines so far): print the progress line, try the scrape, and on
success append `URL: {link}\n`, the text, and `"\n\n"`; on `FetchError` print
the failure diagnostic and write nothing. -/
def scrapeStep (env : Env) (st : String × List String) (link : String) :
    String × List String :=
  let msgs := st.2 ++ ["Scraping " ++ link ++ "..."]
  match scrape_page_to_text env link with
  | Except.ok text => (st.1 ++ "URL: " ++ link ++ "\n" ++ text ++ "\n\n", msgs)
  | Except.error e => (st.1, msgs ++ ["Failed to scrape " ++ link ++ ": " ++ fetchErrorMsg e])

/-- The per-link loop of `main` over the link set. -/
def processLoop (env : Env) (st : String × List String) : List String → String × List String
  | [] => st
  | l :: ls => processLoop env (scrapeStep env st l) ls

/-- The file content and console lines produced by the per-link loop started
on a freshly truncated output file. -/
def processLinks (env : Env) (links : List String) : String × List String :=
  processLoop env ("", []) links

/-- The start-up console lines `main` prints before any network activity. -/
def consoleStart (env : Env) (url output_file : String) : List String :=
  ["Starting to scrape " ++ url,
   "Output will be saved to " ++ output_file,
   "\nFile URI: file://" ++ env.abspath output_file]

/-- The observable outcome of a run: the console transcript and the output
artifact (`none` when the run never opened/created the file, leaving any
pre-existing file at that path untouched). -/
structure RunResult where
  console : List String
  file : Option String
deriving DecidableEq

/-- The body of `main` after argument parsing: print the start-up lines, fetch the seed
(fatal on failure: the top-level handler prints `An error occurred: {e}` and
the output file is never opened), parse it, extract the links (an unresolvable
href likewise aborts before the file is opened), then open/truncate the output
file and run the per-link loop. -/
def mainCore (env : Env) (base_url output_file : String) : RunResult :=
  let start := consoleStart env base_url output_file
  match fetch_page env base_url with
  | Except.error e =>
    ⟨start ++ ["An error occurred: " ++ fetchErrorMsg e], none⟩
  | Except.ok html =>
    match extract_links (env.parse html) base_url with
    | Except.error e => ⟨start ++ ["An error occurred: " ++ e], none⟩
    | Except.ok links =>
      let r := processLinks env links
      ⟨start ++ r.2, some r.1⟩

/-- Substring containment, used to state what the output artifact contains. -/
def containsSubstr (s sub : String) : Prop :=
  List.IsInfix sub.data s.data

/-! ## Concrete fixtures for evaluating the model -/

/-- A document with two anchors whose hrefs resolve to the same absolute
URL (`../c` and `/c` against `https://example.com/a/b`). -/
def docTwoAnchors : Node :=
  Node.element "[document]" [] [Node.element "body" []
    [Node.element "a" [("href", "../c")] [], Node.element "a" [("href", "/c")] []]]

/-- The parse of the base `https://example.com/a/b`. -/
def bW : SplitUrl := ⟨"https".data, "example.com".data, "/a/b".data, [], []⟩

/-- A world with a seed page linking to one scrapable page. -/
def envC4 : Env where
  get u :=
    if u = "https://seed.test/" then Except.ok ⟨200, "SEED"⟩
    else if u = "https://x.test/p" then Except.ok ⟨200, "PAGE2"⟩
    else Except.error "no route to host"
  parse s :=
    if s = "SEED" then docAnchor "https://x.test/p"
    else if s = "PAGE2" then Node.element "p" [] [Node.text "Line1\nLine2"]
    else Node.text ""
  abspath p := "/tmp/" ++ p

/-- A seed page with two links, the first of which answers 404. -/
def docTwoLinks : Node :=
  Node.element "[document]" [] [Node.element "body" []
    [Node.element "a" [("href", "https://a.test/one")] [],
     Node.element "a" [("href", "https://b.test/two")] []]]

/-- A world where one of the two linked pages fails with HTTP 404. -/
def envC5 : Env where
  get u :=
    if u = "https://seed.test/" then Except.ok ⟨200, "SEED"⟩
    else if u = "https://a.test/one" then Except.ok ⟨404, "not found"⟩
    else if u = "https://b.test/two" then Except.ok ⟨200, "GOODPAGE"⟩
    else Except.error "no route to host"
  parse s :=
    if s = "SEED" then docTwoLinks
    else if s = "GOODPAGE" then Node.element "p" [] [Node.text "Good"]
    else Node.text ""
  abspath p := "/tmp/" ++ p

/-- A world where every fetch fails at the transport level. -/
def envC6 : Env where
  get _ := Except.error "connection refused"
  parse _ := Node.text ""
  abspath p := "/tmp/" ++ p

/-- A seed page containing a self-link (`href=""` resolves to the seed URL
itself). -/
def docSelf : Node :=
  Node.element "[document]" [] [Node.element "body" []
    [Node.element "a" [("href", "")] [], Node.element "p" [] [Node.text "Self"]]]

/-- A world whose seed page links back to itself. -/
def envC10 : Env where
  get u :=
    if u = "https://self.test/" then Except.ok ⟨200, "SELF"⟩
    else Except.error "no route to host"
  parse s := if s = "SELF" then docSelf else Node.text ""
  abspath p := "/tmp/" ++ p

/-! ## Lemmas about the link set -/

theorem mem_addLink {l : List String} {v u : String} :
    u ∈ addLink l v ↔ u ∈ l ∨ u = v := by
  unfold addLink
  split
  · constructor
    · exact fun h => Or.inl h
    · rintro (h | rfl)
      · exact h
      · assumption
  · simp [List.mem_append]

theorem nodup_addLink {l : List String} {v : String} (h : l.Nodup) :
    (addLink l v).Nodup := by
  unfold addLink
  split
  · exact h
  · rename_i hv
    simp [List.nodup_append, h, hv]

theorem linksFold_ok_nodup (base : String) :
    ∀ (hs acc l : List String), linksFold base hs acc = Except.ok l →
      acc.Nodup → l.Nodup := by
  intro hs
  induction hs with
  | nil =>
    intro acc l h ha
    simp [linksFold] at h
    exact h ▸ ha
  | cons hd tl ih =>
    intro acc l h ha
    unfold linksFold at h
    cases hu : urljoinS base hd with
    | error e => rw [hu] at h; exact absurd h (by simp)
    | ok u => rw [hu] at h; exact ih _ _ h (nodup_addLink ha)

theorem linksFold_ok_mem (base : String) :
    ∀ (hs acc l : List String), linksFold base hs acc = Except.ok l →
      ∀ u, (u ∈ l ↔ u ∈ acc ∨ ∃ h ∈ hs, urljoinS base h = Except.ok u) := by
  intro hs
  induction hs with
  | nil =>
    intro acc l h u
    simp [linksFold] at h
    subst h
    simp
  | cons hd tl ih =>
    intro acc l h u
    unfold linksFold at h
    cases hu : urljoinS base hd with
    | error e => rw [hu] at h; exact absurd h (by simp)
    | ok v =>
      rw [hu] at h
      rw [ih _ _ h u, mem_addLink]
      simp only [List.mem_cons, hu]
      constructor
      · rintro ((h' | rfl) | ⟨x, hx, he⟩)
        · exact Or.inl h'
        · exact Or.inr ⟨hd, Or.inl rfl, hu⟩
        · exact Or.inr ⟨x, Or.inr hx, he⟩
      · rintro (h' | ⟨x, (rfl | hx), he⟩)
        · exact Or.inl (Or.inl h')
        · rw [hu] at he
          cases he
          exact Or.inl (Or.inr rfl)
        · exact Or.inr ⟨x, hx, he⟩

theorem linksFold_error_iff (base : String) :
    ∀ (hs acc : List String),
      (∃ m, linksFold base hs acc = Except.error m) ↔
        ∃ h ∈ hs, ∃ m, urljoinS base h = Except.error m := by
  intro hs
  induction hs with
  | nil => intro acc; simp [linksFold]
  | cons hd tl ih =>
    intro acc
    unfold linksFold
    cases hu : urljoinS base hd with
    | error e =>
      constructor
      · intro _; exact ⟨hd, List.mem_cons_self _ _, e, hu⟩
      · intro _; exact ⟨e, rfl⟩
    | ok v =>
      rw [ih (addLink acc v)]
      constructor
      · rintro ⟨x, hx, he⟩
        exact ⟨x, List.mem_cons_of_mem _ hx, he⟩
      · rintro ⟨x, hx, m, he⟩
        rcases List.mem_cons.mp hx with rfl | hx'
        · rw [hu] at he
          cases he
        · exact ⟨x, hx', m, he⟩

theorem hrefsList_append (cs ds : List Node) :
    hrefsList (cs ++ ds) = hrefsList cs ++ hrefsList ds := by
  induction cs with
  | nil => simp [hrefsList]
  | cons c cs ih => simp [hrefsList, ih, List.append_assoc]

/-! ## Lemmas about the per-link loop -/

theorem scrapeStep_content (env : Env) (st : String × List String) (link : String) :
    ∃ x, (scrapeStep env st link).1.data = st.1.data ++ x := by
  unfold scrapeStep
  cases hs : scrape_page_to_text env link with
  | ok t =>
    refine ⟨("URL: " ++ link ++ "\n" ++ t ++ "\n\n").data, ?_⟩
    simp [String.data_append, List.append_assoc]
  | error e => exact ⟨[], by simp⟩

theorem processLoop_content (env : Env) :
    ∀ (ls : List String) (st : String × List String),
      ∃ rest, (processLoop env st ls).1.data = st.1.data ++ rest := by
  intro ls
  induction ls with
  | nil => intro st; exact ⟨[], by simp [processLoop]⟩
  | cons l ls ih =>
    intro st
    obtain ⟨x, hx⟩ := scrapeStep_content env st l
    obtain ⟨rest, hr⟩ := ih (scrapeStep env st l)
    refine ⟨x ++ rest, ?_⟩
    show (processLoop env (scrapeStep env st l) ls).1.data = _
    rw [hr, hx, List.append_assoc]

theorem processLoop_record (env : Env) (link t : String)
    (hok : scrape_page_to_text env link = Except.ok t) :
    ∀ (ls : List String) (st : String × List String), link ∈ ls →
      ∃ p q, (processLoop env st ls).1.data =
        p ++ ("URL: " ++ link ++ "\n" ++ t ++ "\n\n").data ++ q := by
  intro ls
  induction ls with
  | nil => intro st h; exact absurd h (List.not_mem_nil _)
  | cons l ls ih =>
    intro st hmem
    rcases List.mem_cons.mp hmem with rfl | h
    · have hstep : (scrapeStep env st link).1.data =
          st.1.data ++ ("URL: " ++ link ++ "\n" ++ t ++ "\n\n").data := by
        unfold scrapeStep
        rw [hok]
        simp [String.data_append, List.append_assoc]
      obtain ⟨rest, hr⟩ := processLoop_content env ls (scrapeStep env st link)
      refine ⟨st.1.data, rest, ?_⟩
      show (processLoop env (scrapeStep env st link) ls).1.data = _
      rw [hr, hstep, List.append_assoc]
    · obtain ⟨p, q, hpq⟩ := ih (scrapeStep env st l) h
      exact ⟨p, q, hpq⟩

/-! ## Lemmas about scheme preservation under `urljoin` -/

theorem mk_data (l : List Char) : (String.mk l).data = l := rfl

theorem string_empty_data : ("" : String).data = [] := rfl

theorem lowerChar_isAlpha {c : Char} (h : c.isAlpha = true) :
    (lowerChar c).isAlpha = true := by
  unfold lowerChar
  split <;> first | decide | exact h

theorem lowerChar_schemeChar {c : Char} (h : schemeChar c = true) :
    schemeChar (lowerChar c) = true := by
  unfold lowerChar
  split <;> first | decide | exact h

/-- The shape `urlsplit` guarantees of a scheme it extracts: nonempty, a
letter first, scheme characters throughout. -/
def schemeShape (s : List Char) : Prop :=
  (∃ c cs, s = c :: cs ∧ c.isAlpha = true) ∧ ∀ c ∈ s, schemeChar c = true

theorem findScheme_shape :
    ∀ (cs acc s r : List Char), findScheme acc cs = some (s, r) →
      ∃ mid, s = (acc.reverse ++ mid).map lowerChar ∧ ∀ c ∈ mid, schemeChar c = true := by
  intro cs
  induction cs with
  | nil => intro acc s r h; exact absurd h (by simp [findScheme])
  | cons c cs ih =>
    intro acc s r h
    unfold findScheme at h
    by_cases hc : c = ':'
    · rw [if_pos hc] at h
      rcases Option.some.inj h with h'
      rcases Prod.mk.injEq .. ▸ h' with ⟨hs, _⟩
      exact ⟨[], by simp [← hs], by simp⟩
    · rw [if_neg hc] at h
      by_cases hsc : schemeChar c = true
      · rw [if_pos hsc] at h
        obtain ⟨mid, hm, hall⟩ := ih (c :: acc) s r h
        refine ⟨c :: mid, ?_, ?_⟩
        · rw [hm]
          simp [List.append_assoc]
        · intro x hx
          rcases List.mem_cons.mp hx with rfl | hx'
          · exact hsc
          · exact hall x hx'
      · rw [if_neg hsc] at h
        exact absurd h (by simp)

theorem splitScheme_shape {l s r : List Char} (h : splitScheme l = some (s, r)) :
    schemeShape s := by
  cases l with
  | nil => exact absurd h (by simp [splitScheme])
  | cons c cs =>
    simp only [splitScheme] at h
    by_cases hc : c.isAlpha = true
    · rw [if_pos hc] at h
      obtain ⟨mid, hm, hall⟩ := findScheme_shape cs [c] s r h
      subst hm
      constructor
      · exact ⟨lowerChar c, mid.map lowerChar, by simp, lowerChar_isAlpha hc⟩
      · intro x hx
        simp only [List.mem_map, List.reverse_singleton, List.singleton_append,
          List.mem_cons] at hx
        obtain ⟨y, hy, rfl⟩ := hx
        rcases hy with rfl | hy'
        · exact lowerChar_schemeChar (by simp [schemeChar, hc])
        · exact lowerChar_schemeChar (hall y hy')
    · rw [if_neg hc] at h
      exact absurd h (by simp)

theorem findScheme_append_isSome :
    ∀ (cs acc t : List Char), (∀ c ∈ cs, schemeChar c = true) →
      (findScheme acc (cs ++ ':' :: t)).isSome = true := by
  intro cs
  induction cs with
  | nil => intro acc t _; simp [findScheme]
  | cons c cs ih =>
    intro acc t hall
    simp only [List.cons_append]
    unfold findScheme
    by_cases hc : c = ':'
    · rw [if_pos hc]; rfl
    · rw [if_neg hc, if_pos (hall c (List.mem_cons_self _ _))]
      exact ih (c :: acc) t (fun x hx => hall x (List.mem_cons_of_mem _ hx))

theorem splitScheme_append_isSome {s : List Char} (hs : schemeShape s) (t : List Char) :
    (splitScheme (s ++ ':' :: t)).isSome = true := by
  obtain ⟨⟨c, cs, rfl, hca⟩, hall⟩ := hs
  simp only [List.cons_append, splitScheme]
  rw [if_pos hca]
  exact findScheme_append_isSome cs [c] t
    (fun x hx => hall x (List.mem_cons_of_mem _ hx))

theorem urlsplitE_ok_scheme {l d : List Char} {r : SplitUrl}
    (h : urlsplitE l d = Except.ok r) : r.scheme = schemeOf l d := by
  simp only [urlsplitE] at h
  split at h <;> split at h <;> (cases h <;> rfl)

theorem scheme_cons_shape (s U q f : List Char) :
    ∃ t, (if f ≠ [] then
            (if q ≠ [] then (s ++ ':' :: U) ++ '?' :: q else s ++ ':' :: U) ++ '#' :: f
          else if q ≠ [] then (s ++ ':' :: U) ++ '?' :: q else s ++ ':' :: U) =
      s ++ ':' :: t := by
  by_cases hf : f ≠ [] <;> by_cases hq : q ≠ []
  · exact ⟨U ++ '?' :: q ++ '#' :: f,
      by rw [if_pos hf, if_pos hq]; simp [List.append_assoc]⟩
  · exact ⟨U ++ '#' :: f, by rw [if_pos hf, if_neg hq]; simp [List.append_assoc]⟩
  · exact ⟨U ++ '?' :: q, by rw [if_neg hf, if_pos hq]; simp [List.append_assoc]⟩
  · exact ⟨U, by rw [if_neg hf, if_neg hq]⟩

theorem urlunsplit_scheme_cons {r : SplitUrl} (h : r.scheme ≠ []) :
    ∃ t, urlunsplit r = r.scheme ++ ':' :: t := by
  simp only [urlunsplit]
  rw [if_pos h]
  exact scheme_cons_shape _ _ _ _

theorem joinResolved_shape (b u : SplitUrl) :
    ∃ n p q f, joinResolved b u = urlunsplit ⟨u.scheme, n, p, q, f⟩ := by
  simp only [joinResolved]
  split
  · exact ⟨u.netloc, u.path, u.query, u.fragment, rfl⟩
  · split
    · exact ⟨_, _, _, _, rfl⟩
    · exact ⟨_, _, _, _, rfl⟩

/-- Under an absolute base URL of a relative-capable scheme, every successful
`urljoin` result carries a scheme. -/
theorem urljoinS_ok_hasScheme {base url out : String} {b : SplitUrl}
    (hb : urlsplitE base.data [] = Except.ok b) (hbs : b.scheme ≠ [])
    (hrel : b.scheme ∈ usesRelative)
    (h : urljoinS base url = Except.ok out) : hasUrlScheme out = true := by
  have hbsch := urlsplitE_ok_scheme hb
  unfold urljoinS at h
  cases hj : urljoinE base.data url.data with
  | error e => rw [hj] at h; exact absurd h (by simp)
  | ok l =>
    rw [hj] at h
    cases h
    unfold urljoinE at hj
    by_cases hbase : base.data = []
    · rw [hbase] at hb
      have h0 : urlsplitE [] [] = Except.ok ⟨[], [], [], [], []⟩ := by decide
      rw [h0] at hb
      cases hb
      exact absurd rfl hbs
    · rw [if_neg hbase] at hj
      by_cases hurl : url.data = []
      · rw [hurl, if_pos rfl] at hj
        cases hj
        cases hsp : splitScheme base.data with
        | none =>
          unfold schemeOf at hbsch
          rw [hsp] at hbsch
          exact absurd hbsch hbs
        | some pr => simp [hasUrlScheme, mk_data, hsp]
      · rw [if_neg hurl] at hj
        split at hj
        · exact absurd hj (by simp)
        · rename_i b' heq
          rw [hb] at heq
          injection heq with heq'
          subst heq'
          split at hj
          · exact absurd hj (by simp)
          rename_i U hu
          have hUs := urlsplitE_ok_scheme hu
          split at hj
          · rename_i hcond
            cases hj
            cases hsp : splitScheme url.data with
            | some pr => simp [hasUrlScheme, mk_data, hsp]
            | none =>
              unfold schemeOf at hUs
              rw [hsp] at hUs
              rcases hcond with hc | hc
              · exact absurd hUs hc
              · rw [hUs] at hc
                exact absurd hrel hc
          · rename_i hcond
            cases hj
            push_neg at hcond
            obtain ⟨hc1, _⟩ := hcond
            obtain ⟨n, p, q, f, hshape⟩ := joinResolved_shape b U
            have hne : (SplitUrl.mk U.scheme n p q f).scheme ≠ [] := by
              show U.scheme ≠ []
              rw [hc1]
              exact hbs
            obtain ⟨t, ht⟩ := urlunsplit_scheme_cons hne
            have hshp : schemeShape b.scheme := by
              cases hbsp : splitScheme base.data with
              | none =>
                unfold schemeOf at hbsch
                rw [hbsp] at hbsch
                exact absurd hbsch hbs
              | some pr =>
                unfold schemeOf at hbsch
                rw [hbsp] at hbsch
                exact hbsch ▸ splitScheme_shape (s := pr.1) (r := pr.2) (by rw [hbsp])
            simp only [hasUrlScheme, mk_data, hshape, ht]
            show (splitScheme (U.scheme ++ ':' :: t)).isSome = true
            rw [hc1]
            exact splitScheme_append_isSome hshp t


/-! ## The claims -/

/-- Claim C1: for every document and base URL, if two (or more) anchor
elements carry hrefs that resolve to the same absolute URL, then a successful
`extract_links` returns a collection containing that URL exactly once. -/
theorem extract_links_dedup (doc : Node) (base u : String) (l : List String)
    (i j : Nat) (hi : i < (nodeHrefs doc).length) (hj : j < (nodeHrefs doc).length)
    (hij : i ≠ j)
    (hok : extract_links doc base = Except.ok l)
    (r1 : urljoinS base ((nodeHrefs doc).get ⟨i, hi⟩) = Except.ok u)
    (r2 : urljoinS base ((nodeHrefs doc).get ⟨j, hj⟩) = Except.ok u) :
    l.count u = 1 := by
  have hmem : u ∈ l := by
    rw [linksFold_ok_mem base (nodeHrefs doc) [] l hok u]
    exact Or.inr ⟨_, List.get_mem _ _ _, r1⟩
  have hnd : l.Nodup := linksFold_ok_nodup base (nodeHrefs doc) [] l hok List.nodup_nil
  exact List.count_eq_one_of_mem hnd hmem

/-- Witness for C1: a document with anchors `../c` and `/c`, both resolving
to `https://example.com/c` against base `https://example.com/a/b`. -/
theorem extract_links_dedup_witness :
    (["https://example.com/c"] : List String).count "https://example.com/c" = 1 :=
  extract_links_dedup docTwoAnchors "https://example.com/a/b" "https://example.com/c"
    ["https://example.com/c"] 0 1 (by decide) (by decide) (by decide) (by decide)
    (by decide) (by decide)

/-- Claim C2: against base `https://example.com/a/b`, an href `../c` resolves
to `https://example.com/c`, `/d` to `https://example.com/d`, and the absolute
`https://other.com/e` passes through unchanged. -/
theorem extract_links_resolution_examples :
    extract_links (docAnchor "../c") "https://example.com/a/b" =
      Except.ok ["https://example.com/c"] ∧
    extract_links (docAnchor "/d") "https://example.com/a/b" =
      Except.ok ["https://example.com/d"] ∧
    extract_links (docAnchor "https://other.com/e") "https://example.com/a/b" =
      Except.ok ["https://other.com/e"] := by
  refine ⟨by decide, by decide, by decide⟩

/-- Claim C3: on the document
`<html><body><script>ignored()</script><style>body{color:red}</style><p>Hello</p></body></html>`
the text-extraction step yields exactly `"Hello"`, with no trace of the
script or style content. -/
theorem extract_text_excludes_script_style :
    extract_text docScriptStyle = "Hello" ∧
    ¬ containsSubstr (extract_text docScriptStyle) "ignored()" ∧
    ¬ containsSubstr (extract_text docScriptStyle) "color:red" := by
  have h : extract_text docScriptStyle = "Hello" := by decide
  refine ⟨h, ?_, ?_⟩ <;> rw [h] <;> intro hc <;>
    exact absurd (List.IsInfix.length_le hc) (by decide)

/-- Claim C4: a link `https://x.test/p` whose scrape succeeds with text
`"Line1\nLine2"` contributes the exact record
`"URL: https://x.test/p\nLine1\nLine2\n\n"` to the output artifact. -/
theorem output_record_format (env : Env) (seed out html : String) (links : List String)
    (h1 : fetch_page env seed = Except.ok html)
    (h2 : extract_links (env.parse html) seed = Except.ok links)
    (h3 : "https://x.test/p" ∈ links)
    (h4 : scrape_page_to_text env "https://x.test/p" = Except.ok "Line1\nLine2") :
    ∃ content, (mainCore env seed out).file = some content ∧
      containsSubstr content "URL: https://x.test/p\nLine1\nLine2\n\n" := by
  simp only [mainCore, h1, h2]
  refine ⟨(processLinks env links).1, rfl, ?_⟩
  obtain ⟨p, q, hpq⟩ :=
    processLoop_record env "https://x.test/p" "Line1\nLine2" h4 links ("", []) h3
  exact ⟨p, q, hpq.symm⟩

/-- Witness for C4 in a concrete world. -/
theorem output_record_format_witness :
    ∃ content, (mainCore envC4 "https://seed.test/" "out.txt").file = some content ∧
      containsSubstr content "URL: https://x.test/p\nLine1\nLine2\n\n" :=
  output_record_format envC4 "https://seed.test/" "out.txt" "SEED"
    ["https://x.test/p"] (by decide) (by decide) (by decide) (by decide)

/-- Claim C5: a per-link fetch failure never aborts the run: with links
`[l1, l2]` where scraping `l1` raises a `FetchError` and `l2` succeeds, the
run completes with exactly the one record for `l2` in the artifact and a
failure diagnostic for `l1` on the console. -/
theorem perlink_failure_nonfatal (env : Env) (seed out html l1 l2 t : String)
    (e : FetchError)
    (h1 : fetch_page env seed = Except.ok html)
    (h2 : extract_links (env.parse html) seed = Except.ok [l1, l2])
    (h3 : scrape_page_to_text env l1 = Except.error e)
    (h4 : scrape_page_to_text env l2 = Except.ok t) :
    (mainCore env seed out).file = some ("URL: " ++ l2 ++ "\n" ++ t ++ "\n\n") ∧
      ("Failed to scrape " ++ l1 ++ ": " ++ fetchErrorMsg e) ∈
        (mainCore env seed out).console := by
  constructor
  · simp only [mainCore, h1, h2]
    refine congrArg some (String.ext ?_)
    simp [processLinks, processLoop, scrapeStep, h3, h4, string_empty_data]
  · simp only [mainCore, h1, h2]
    simp [processLinks, processLoop, scrapeStep, h3, h4]

/-- Witness for C5: the first link 404s, the second succeeds. -/
theorem perlink_failure_nonfatal_witness :
    (mainCore envC5 "https://seed.test/" "out.txt").file =
      some ("URL: " ++ "https://b.test/two" ++ "\n" ++ "Good" ++ "\n\n") ∧
      ("Failed to scrape " ++ "https://a.test/one" ++ ": " ++
          fetchErrorMsg (FetchError.http 404)) ∈
        (mainCore envC5 "https://seed.test/" "out.txt").console :=
  perlink_failure_nonfatal envC5 "https://seed.test/" "out.txt" "SEED"
    "https://a.test/one" "https://b.test/two" "Good" (FetchError.http 404)
    (by decide) (by decide) (by decide) (by decide)

/-- Claim C6: a seed-fetch failure is fatal and happens before any output is
produced: the run reports the top-level error, never reaches link extraction
or the per-link loop, and never opens the output file. -/
theorem seed_failure_fatal (env : Env) (seed out : String) (e : FetchError)
    (h : fetch_page env seed = Except.error e) :
    mainCore env seed out =
      ⟨consoleStart env seed out ++ ["An error occurred: " ++ fetchErrorMsg e], none⟩ := by
  simp only [mainCore, h]

/-- Witness for C6: a world where the seed fetch fails at transport level. -/
theorem seed_failure_fatal_witness :
    mainCore envC6 "https://down.test/" "out.txt" =
      ⟨consoleStart envC6 "https://down.test/" "out.txt" ++
        ["An error occurred: " ++ fetchErrorMsg (FetchError.transport "connection refused")],
        none⟩ :=
  seed_failure_fatal envC6 "https://down.test/" "out.txt"
    (FetchError.transport "connection refused") (by decide)

/-- Claim C7: `fetch_page` raises a `FetchError` exactly when the transport
fails or the status is 4xx/5xx, otherwise returns the body text; and
`scrape_page_to_text` raises a `FetchError` if and only if its embedded fetch
does, propagated unchanged. -/
theorem fetch_error_characterization (env : Env) (url : String) :
    ((∃ e, fetch_page env url = Except.error e) ↔
      (∃ m, env.get url = Except.error m) ∨
        (∃ r, env.get url = Except.ok r ∧ 400 ≤ r.status ∧ r.status < 600)) ∧
    (∀ b, fetch_page env url = Except.ok b ↔
      ∃ r, env.get url = Except.ok r ∧ ¬(400 ≤ r.status ∧ r.status < 600) ∧ b = r.body) ∧
    (∀ e, scrape_page_to_text env url = Except.error e ↔
      fetch_page env url = Except.error e) := by
  cases hg : env.get url with
  | error m =>
    refine ⟨?_, ?_, ?_⟩
    · simp [fetch_page, hg]
    · intro b; simp [fetch_page, hg]
    · intro e; simp [scrape_page_to_text, fetch_page, hg]
  | ok r =>
    by_cases hs : 400 ≤ r.status ∧ r.status < 600
    · refine ⟨?_, ?_, ?_⟩
      · simp [fetch_page, hg, hs]
      · intro b; simp [fetch_page, hg, hs]
      · intro e; simp [scrape_page_to_text, fetch_page, hg, hs]
    · refine ⟨?_, ?_, ?_⟩
      · simp [fetch_page, hg, hs]
      · intro b
        simp [fetch_page, hg, hs, eq_comm]
        intro _ _
        omega
      · intro e; simp [scrape_page_to_text, fetch_page, hg, hs]

/-- Counterexample to C8: an href whose authority has an unbalanced bracket
makes `extract_links` raise (`ValueError: Invalid IPv6 URL`) instead of
silently skipping it. -/
theorem extract_links_raises_on_malformed_href :
    extract_links (docAnchor "http://[") "https://example.com/" =
      Except.error "Invalid IPv6 URL" := by decide

/-- Amended C8: anchors without an href are ignored entirely, but malformed
hrefs are not skipped: `extract_links` raises exactly when some anchor's
href fails to resolve, and the error propagates out of the function. -/
theorem extract_links_failure_semantics (doc : Node) (base : String) :
    ((∃ m, extract_links doc base = Except.error m) ↔
      ∃ h ∈ nodeHrefs doc, ∃ m, urljoinS base h = Except.error m) ∧
    (∀ tag attrs cs,
      extract_links (Node.element tag attrs (cs ++ [Node.element "a" [] []])) base =
        extract_links (Node.element tag attrs cs) base) := by
  constructor
  · exact linksFold_error_iff base (nodeHrefs doc) []
  · intro tag attrs cs
    unfold extract_links
    simp only [nodeHrefs, hrefsList_append]
    have hanchor : hrefsList [Node.element "a" [] []] = [] := rfl
    rw [hanchor, List.append_nil]

/-- Counterexample to C9: an anchor `mailto:x@y` passes through `urljoin`
unchanged, so the link set contains a member that is not an absolute URL in
the glossary sense (scheme and host) and is not fetchable. -/
theorem extract_links_admits_nonfetchable_url :
    extract_links (docAnchor "mailto:x@y") "https://example.com/a/b" =
      Except.ok ["mailto:x@y"] ∧
    isAbsoluteUrl "mailto:x@y" = false := by
  refine ⟨by decide, by decide⟩

/-- Amended C9: when the base URL parses with a nonempty, relative-capable
scheme (e.g. an absolute http(s) URL), every member of a successful link set
carries a URL scheme; members need not have a host (opaque schemes such as
`mailto:` pass through unchanged). -/
theorem extract_links_members_carry_scheme (doc : Node) (base : String)
    (b : SplitUrl) (l : List String)
    (hb : urlsplitE base.data [] = Except.ok b) (hbs : b.scheme ≠ [])
    (hrel : b.scheme ∈ usesRelative)
    (hok : extract_links doc base = Except.ok l) :
    ∀ u ∈ l, hasUrlScheme u = true := by
  intro u hu
  rw [linksFold_ok_mem base (nodeHrefs doc) [] l hok u] at hu
  rcases hu with h0 | ⟨h, _, hres⟩
  · exact absurd h0 (List.not_mem_nil u)
  · exact urljoinS_ok_hasScheme hb hbs hrel hres

/-- Witness for amended C9 at a concrete document and base. -/
theorem extract_links_members_carry_scheme_witness :
    hasUrlScheme "https://example.com/c" = true :=
  extract_links_members_carry_scheme docTwoAnchors "https://example.com/a/b" bW
    ["https://example.com/c"] (by decide) (by decide) (by decide) (by decide)
    "https://example.com/c" (by decide)

/-- Claim C10: self-links are not excluded: an anchor whose href resolves to
the seed URL itself puts the seed URL into the link set, and the per-link
loop scrapes it like any other link, producing a record for the seed page in
the artifact. -/
theorem self_link_rescraped (env : Env) (seed out html h t : String)
    (links : List String)
    (h1 : fetch_page env seed = Except.ok html)
    (hmem : h ∈ nodeHrefs (env.parse html))
    (hres : urljoinS seed h = Except.ok seed)
    (h2 : extract_links (env.parse html) seed = Except.ok links)
    (h4 : scrape_page_to_text env seed = Except.ok t) :
    seed ∈ links ∧
      ∃ content, (mainCore env seed out).file = some content ∧
        containsSubstr content ("URL: " ++ seed ++ "\n" ++ t ++ "\n\n") := by
  have hmem' : seed ∈ links := by
    rw [linksFold_ok_mem seed (nodeHrefs (env.parse html)) [] links h2 seed]
    exact Or.inr ⟨h, hmem, hres⟩
  refine ⟨hmem', ?_⟩
  simp only [mainCore, h1, h2]
  refine ⟨(processLinks env links).1, rfl, ?_⟩
  obtain ⟨p, q, hpq⟩ := processLoop_record env seed t h4 links ("", []) hmem'
  exact ⟨p, q, hpq.symm⟩

/-- Witness for C10: a seed page with `href=""`, which resolves to the seed
URL itself. -/
theorem self_link_rescraped_witness :
    "https://self.test/" ∈ ["https://self.test/"] ∧
      ∃ content, (mainCore envC10 "https://self.test/" "out.txt").file = some content ∧
        containsSubstr content
          ("URL: " ++ "https://self.test/" ++ "\n" ++ "Self" ++ "\n\n") :=
  self_link_rescraped envC10 "https://self.test/" "out.txt" "SELF" "" "Self"
    ["https://self.test/"] (by decide) (by decide) (by decide) (by decide) (by decide)
